import Mathlib

/-
Verification of the AnswerSelector retrieval and indexing core.

The development shallowly embeds two modules of the program:

  app/managers/datamanager.py  — record store, category index, keyword search
  app/managers/embedmanager.py — embedding engine state machine and similarity ranker

plus the semantic-search click handler of app/ui/textsearch.py.

Modelling conventions:
  - Python dicts with string keys are modelled as insertion-ordered association
    lists; `upsert` mirrors dict insertion or in-place update and `aFind`
    mirrors key lookup.  Python dict key order is insertion order, which the
    association-list representation preserves.
  - SQLite values that may be NULL are `Option` values; the Python idiom
    `x or default` on strings (falsy on None and on the empty string) is
    modelled by `pyOr`.
  - JSON numbers are idealised as rationals in the data layer and the
    floating-point vectors of the embedding layer are idealised as reals.
  - The filesystem and database contents read at load time are passed in
    explicitly as a `DataDir` value; model assets as a `ModelDir` value.
-/

namespace ASel

/-! ## Ordered association lists (Python dict model) -/

/-- Insert or update key `k`: if present, replace its value in place keeping
dict order; otherwise append the new key at the end, as Python dict insertion
does.  The update function receives the current value when the key exists. -/
def upsert {κ β : Type} [DecidableEq κ] (l : List (κ × β)) (k : κ) (f : Option β → β) :
    List (κ × β) :=
  match l with
  | [] => [(k, f none)]
  | (k', v) :: rest => if k' = k then (k', f (some v)) :: rest else (k', v) :: upsert rest k f

/-- Key lookup in an association list (first match). -/
def aFind {κ β : Type} [DecidableEq κ] (l : List (κ × β)) (k : κ) : Option β :=
  match l with
  | [] => none
  | (k', v) :: rest => if k' = k then some v else aFind rest k

/-! ## Data model (datamanager.py) -/

/-- Python truthiness fallback `x or default` for an optional string: both
`None` and the empty string fall back to the default. -/
def pyOr (o : Option String) (d : String) : String :=
  match o with
  | none => d
  | some s => if s = "" then d else s

/-- Result of `json.loads` on a stored embedding text, as far as the program
distinguishes shapes: an array of numbers, or any other valid JSON value
(number, string, object, boolean, null, or a non-numeric array). -/
inductive Jsonv : Type
  | floatArr (v : List ℚ)
  | other
deriving DecidableEq

/-- The raw `embedding` column value of an answer row, classified by how the
loader in `_load_answers` treats it: SQL NULL (falsy), the empty string
(falsy), text on which `json.loads` raises `JSONDecodeError`, or text that
decodes to the JSON value `j`. -/
inductive EmbRaw : Type
  | null
  | emptyStr
  | invalid
  | valid (j : Jsonv)
deriving DecidableEq

/-- A raw row of the `answerembed` table. -/
structure AnswerRow : Type where
  id : Option Int
  code : Option String
  cat1 : Option String
  cat2 : Option String
  cat3 : Option String
  title : Option String
  maintext : Option String
  agency1 : Option String
  agency2 : Option String
  embedding : EmbRaw
deriving DecidableEq

/-- An answer record after `_load_answers`: identical to the row except that
the embedding field holds the decoded value. -/
structure Answer : Type where
  id : Option Int
  code : Option String
  cat1 : Option String
  cat2 : Option String
  cat3 : Option String
  title : Option String
  maintext : Option String
  agency1 : Option String
  agency2 : Option String
  embedding : Jsonv
deriving DecidableEq

/-- A raw row of the `agencies` table. -/
structure AgencyRow : Type where
  id : Option Int
  name : Option String
  website : Option String
  tel : Option String
  paid : Option String
deriving DecidableEq

/-- A raw row of the `introclosing` table. -/
structure IntroRow : Type where
  id : Option Int
  type : Option String
  cat : Option String
  text : Option String
deriving DecidableEq

/-- The loaded embedding value for one row: a falsy cell (NULL or empty text)
and a cell whose text fails JSON decoding both become the empty list; text
that decodes keeps its decoded value unchanged (`record["embedding"] =
json.loads(emb_str)` replaces the field with whatever was decoded). -/
def loadEmbedding : EmbRaw → Jsonv
  | .null => .floatArr []
  | .emptyStr => .floatArr []
  | .invalid => .floatArr []
  | .valid j => j

/-- One row of `_load_answers`. -/
def loadAnswerRow (r : AnswerRow) : Answer :=
  { id := r.id, code := r.code, cat1 := r.cat1, cat2 := r.cat2, cat3 := r.cat3,
    title := r.title, maintext := r.maintext, agency1 := r.agency1,
    agency2 := r.agency2, embedding := loadEmbedding r.embedding }

/-- `_load_answers`: every fetched row is decoded and appended in order. -/
def loadAnswers (rows : List AnswerRow) : List Answer :=
  rows.map loadAnswerRow

/-- `_load_agencies`: build the name-keyed dict, skipping rows with a falsy
name; a repeated name overwrites the earlier entry, as dict assignment does. -/
def loadAgencies (rows : List AgencyRow) : List (String × AgencyRow) :=
  rows.foldl
    (fun acc r =>
      match r.name with
      | none => acc
      | some s => if s = "" then acc else upsert acc s (fun _ => r))
    []

/-- The three-level category index `cat1 -> cat2 -> cat3 -> [records]`. -/
abbrev Tree3 : Type := List (String × List (String × List (String × List Answer)))

/-- The `intro_index` mapping `type -> cat -> [rows]`; the inner key comes from
`item.get("cat")` and may be NULL, hence `Option String`. -/
abbrev IntroIdx : Type := List (String × List (Option String × List IntroRow))

instance : DecidableEq (List (String × List Answer)) := inferInstance

instance : DecidableEq (List (String × List (String × List Answer))) := inferInstance

instance : DecidableEq Tree3 := inferInstance

/-- The manager state: containers and indexes of `DataManager`. -/
structure DataManager : Type where
  answers : List Answer
  agencies : List (String × AgencyRow)
  conjunctions : List String
  intro_closing : List IntroRow
  by_code : List (String × Answer)
  by_id : List (Int × Answer)
  index_tree : Tree3
  intro_index : IntroIdx
deriving DecidableEq

/-- Fresh manager as built by `DataManager.__init__`. -/
def DataManager.init : DataManager :=
  { answers := [], agencies := [], conjunctions := [], intro_closing := [],
    by_code := [], by_id := [], index_tree := [],
    intro_index := [("intro", []), ("closing", [])] }

/-- Insertion of one record into the category tree: each level key is the
category value with NULL or empty replaced by the reserved sentinel
(`rec.get("catN") or "Unknown"`), missing dict levels are created, and the
record is appended to the leaf list. -/
def insertAnswerIdx (t : Tree3) (rec : Answer) : Tree3 :=
  upsert t (pyOr rec.cat1 "Unknown")
    (fun sub => upsert (sub.getD []) (pyOr rec.cat2 "Unknown")
      (fun sub2 => upsert (sub2.getD []) (pyOr rec.cat3 "Unknown")
        (fun recs => recs.getD [] ++ [rec])))

/-- The category tree built over a record list, in storage order. -/
def buildTree (answers : List Answer) : Tree3 :=
  answers.foldl insertAnswerIdx []

/-- The `by_code` index: keyed by `code` when truthy; assignment overwrites. -/
def buildByCode (answers : List Answer) : List (String × Answer) :=
  answers.foldl
    (fun acc rec =>
      match rec.code with
      | none => acc
      | some c => if c = "" then acc else upsert acc c (fun _ => rec))
    []

/-- The `by_id` index: keyed by `id` when it is not NULL. -/
def buildById (answers : List Answer) : List (Int × Answer) :=
  answers.foldl
    (fun acc rec =>
      match rec.id with
      | none => acc
      | some i => upsert acc i (fun _ => rec))
    []

/-- The `intro_index` build: only rows whose type is one of the two hardcoded
buckets are kept, grouped by their (possibly NULL) category label. -/
def buildIntroIdx (rows : List IntroRow) : IntroIdx :=
  rows.foldl
    (fun acc item =>
      match item.type with
      | none => acc
      | some t =>
        if (aFind acc t).isSome then
          upsert acc t
            (fun cur => upsert (cur.getD []) item.cat (fun l => l.getD [] ++ [item]))
        else acc)
    [("intro", []), ("closing", [])]

/-- `_build_indexes`: rebuild all four indexes from the loaded containers. -/
def buildIndexes (m : DataManager) : DataManager :=
  { m with
    by_code := buildByCode m.answers,
    by_id := buildById m.answers,
    index_tree := buildTree m.answers,
    intro_index := buildIntroIdx m.intro_closing }

/-- The four required persistent sources checked by `_ensure_required_files`. -/
def requiredDataFiles : List String :=
  ["answersembed.db", "agencies.db", "introclosing.db", "conjunctions.json"]

/-- The data directory contents visible to `load_all`. -/
structure DataDir : Type where
  files : List String
  answersRows : List AnswerRow
  agenciesRows : List AgencyRow
  introRows : List IntroRow
  conjunctions : List String
deriving DecidableEq

/-- `load_all`: first `_ensure_required_files` computes the absent sources and
raises `MissingRequiredDataError(missing)` before anything is loaded, so on
failure the manager is returned unchanged together with the error payload; on
success the four loaders run and the indexes are rebuilt.  The second
component models the raised error (`some missing`) or normal return. -/
def load_all (d : DataDir) (m : DataManager) : DataManager × Option (List String) :=
  let missing := requiredDataFiles.filter (fun f => !(d.files.contains f))
  if missing.isEmpty then
    let m' :=
      { m with
        answers := loadAnswers d.answersRows,
        agencies := loadAgencies d.agenciesRows,
        intro_closing := d.introRows,
        conjunctions := d.conjunctions }
    (buildIndexes m', none)
  else
    (m, some missing)

/-! ## Keyword search and category lookups (datamanager.py public API) -/

/-- `needle` is an initial segment of `hay` (character lists). -/
def leadsWith : List Char → List Char → Bool
  | [], _ => true
  | _ :: _, [] => false
  | a :: as, b :: bs => a = b && leadsWith as bs

/-- `needle` occurs contiguously somewhere in `hay` (character lists). -/
def occursIn (n : List Char) : List Char → Bool
  | [] => leadsWith n []
  | b :: bs => leadsWith n (b :: bs) || occursIn n bs

/-- The Python string containment test `needle in hay`. -/
def strIn (needle hay : String) : Bool :=
  occursIn needle.toList hay.toList

/-- The specification notion of a literal contiguous substring. -/
def Substr (needle hay : String) : Prop :=
  ∃ pre post : List Char, hay.toList = pre ++ needle.toList ++ post

/-- `search_answers`: empty keyword returns no results; otherwise a record is
kept when the keyword occurs in its title or in its main text (each defaulted
to the empty string when NULL), in storage order. -/
def search_answers (m : DataManager) (keyword : String) : List Answer :=
  if keyword = "" then []
  else
    m.answers.filter
      (fun rec => strIn keyword (pyOr rec.title "") || strIn keyword (pyOr rec.maintext ""))

/-- `get_cat1_list`: the top-level keys of the index tree in dict order. -/
def get_cat1_list (m : DataManager) : List String :=
  m.index_tree.map Prod.fst

/-- `get_cat2_list`: the second-level keys under `cat1`, or empty. -/
def get_cat2_list (m : DataManager) (cat1 : String) : List String :=
  match aFind m.index_tree cat1 with
  | some sub => sub.map Prod.fst
  | none => []

/-- `get_cat3_list` (argument order as in the source: cat2 then cat1). -/
def get_cat3_list (m : DataManager) (cat2 cat1 : String) : List String :=
  match aFind m.index_tree cat1 with
  | some sub =>
    match aFind sub cat2 with
    | some sub2 => sub2.map Prod.fst
    | none => []
  | none => []

/-- `get_answers_in_cat3` (argument order as in the source: cat2, cat3, cat1);
the KeyError of a missing inner key is caught and becomes the empty list. -/
def get_answers_in_cat3 (m : DataManager) (cat2 cat3 cat1 : String) : List Answer :=
  match aFind m.index_tree cat1 with
  | some sub =>
    match aFind sub cat2 with
    | some sub2 =>
      match aFind sub2 cat3 with
      | some recs => recs
      | none => []
    | none => []
  | none => []

/-! ## Embedding engine state machine (embedmanager.py) -/

/-- The model directory and external load outcomes visible to the engine:
which asset files exist, whether the configuration document parses as JSON,
which keys it contains, and whether the tokenizer and the inference session
construct without an exception. -/
structure ModelDir : Type where
  files : List String
  infoParses : Bool
  infoKeys : List String
  tokenizerLoadOk : Bool
  sessionLoadOk : Bool
deriving DecidableEq

/-- The engine state: the startup-validity flag, and whether the tokenizer
and the inference session are currently held (`self.tokenizer`/`self.session`
are not None).  Configuration scalar fields are omitted: no claim depends on
their values. -/
structure EmbedManager : Type where
  is_valid_at_startup : Bool
  tokenizerSome : Bool
  sessionSome : Bool
deriving DecidableEq

/-- Fresh engine as built by `EmbedManager.__init__`. -/
def EmbedManager.init : EmbedManager :=
  { is_valid_at_startup := false, tokenizerSome := false, sessionSome := false }

/-- The engine is in the Loaded state when both handles are held. -/
def EmbedManager.isLoaded (m : EmbedManager) : Bool :=
  m.sessionSome && m.tokenizerSome

/-- The three required model asset files of `check_files`. -/
def requiredModelFiles : List String :=
  ["model.onnx", "tokenizer.json", "model_info"]

/-- The six required configuration keys of `_load_config`. -/
def requiredConfigKeys : List String :=
  ["model_name", "license", "hidden_size", "max_length", "output_name", "use_pooling"]

/-- `_load_config` succeeds when the configuration document exists, parses,
and contains every required key (extra keys are allowed). -/
def loadConfigOk (d : ModelDir) : Bool :=
  d.files.contains "model_info" && d.infoParses
    && requiredConfigKeys.all (fun k => d.infoKeys.contains k)

/-- `check_files`: when any asset file is missing or the configuration is
invalid, the startup flag is cleared and False is returned; otherwise the
flag is set and True is returned.  Note the flag is recomputed on every call:
there is no guard against re-running validation. -/
def check_files (d : ModelDir) (m : EmbedManager) : EmbedManager × Bool :=
  let missing := requiredModelFiles.filter (fun f => !(d.files.contains f))
  if missing.isEmpty then
    if loadConfigOk d then ({ m with is_valid_at_startup := true }, true)
    else ({ m with is_valid_at_startup := false }, false)
  else
    ({ m with is_valid_at_startup := false }, false)

/-- `load_model`: a cleared startup flag fails immediately without touching
anything (the lock-out branch); otherwise `check_files` is re-run as a runtime
safety check, then the tokenizer and the session are constructed, each of
which may raise, leaving the state written so far. -/
def load_model (d : ModelDir) (m : EmbedManager) : EmbedManager × Bool :=
  if !m.is_valid_at_startup then (m, false)
  else
    let c := check_files d m
    if !c.2 then (c.1, false)
    else if !d.tokenizerLoadOk then (c.1, false)
    else
      let m2 := { c.1 with tokenizerSome := true }
      if !d.sessionLoadOk then (m2, false)
      else ({ m2 with sessionSome := true }, true)

/-- `unload_model`: clear both handles. -/
def unload_model (m : EmbedManager) : EmbedManager :=
  { m with tokenizerSome := false, sessionSome := false }

/-- state-changing engine operations a caller can perform after startup;
`getEmb` is `get_embedding`, whose only state effect is the lazy
`load_model` attempt when a handle is missing. -/
inductive EngineOp : Type
  | loadModelOp (d : ModelDir)
  | unloadModelOp
  | checkFilesOp (d : ModelDir)
  | getEmbOp (d : ModelDir)
deriving DecidableEq

/-- Whether an operation re-runs the validation `check_files` directly. -/
def EngineOp.isCheckFiles : EngineOp → Bool
  | .checkFilesOp _ => true
  | _ => false

/-- State transition of one engine operation. -/
def engineStep (m : EmbedManager) : EngineOp → EmbedManager
  | .loadModelOp d => (load_model d m).1
  | .unloadModelOp => unload_model m
  | .checkFilesOp d => (check_files d m).1
  | .getEmbOp d =>
    if !m.sessionSome || !m.tokenizerSome then (load_model d m).1 else m

/-- Run a sequence of engine operations from a state. -/
def runEngine (m : EmbedManager) (ops : List EngineOp) : EmbedManager :=
  ops.foldl engineStep m

/-! ## Embedding pipeline numerics (embedmanager.py) -/

/-- Sum of squares of a vector. -/
def sumSq (v : List ℝ) : ℝ :=
  v.foldr (fun x acc => x * x + acc) 0

/-- The L2 norm `np.linalg.norm`. -/
noncomputable def l2norm (v : List ℝ) : ℝ :=
  Real.sqrt (sumSq v)

/-- The final normalization step of `get_embedding`: divide by the norm only
when it is positive, otherwise return the vector unchanged. -/
noncomputable def l2normalize (v : List ℝ) : List ℝ :=
  if 0 < l2norm v then v.map (fun x => x / l2norm v) else v

/-- `get_embedding`: empty text gives no result; a tokenization or inference
failure (modelled by the external function returning none) gives no result;
otherwise the pooled raw vector is L2-normalized.  Tokenization, inference
and pooling happen inside external collaborators (tokenizer and ONNX
session), abstracted as the `infer` function. -/
noncomputable def get_embedding (infer : String → Option (List ℝ))
    (text : String) : Option (List ℝ) :=
  if text = "" then none
  else
    match infer text with
    | none => none
    | some raw => some (l2normalize raw)

/-- Dot product (vectors of equal length by the record invariant). -/
def dotProd (a b : List ℝ) : ℝ :=
  (List.zipWith (fun x y => x * y) a b).foldr (fun x acc => x + acc) 0

/-- Cosine similarity as computed in `search_similarity`: dot product over
the product of norms when both norms are positive, otherwise 0.0. -/
noncomputable def cosineSim (q d : List ℝ) : ℝ :=
  if 0 < l2norm q ∧ 0 < l2norm d then dotProd q d / (l2norm q * l2norm d) else 0

/-! ## Similarity ranker (embedmanager.py `search_similarity`) -/

/-- A corpus record as the ranker sees it: an opaque payload of all the other
dict fields, the stored embedding vector (empty when absent), and the `score`
key, present (`some`) only after ranking attaches it. -/
structure Doc (α : Type) : Type where
  core : α
  embedding : List ℝ
  score : Option ℝ

/-- The per-result copy: `result = doc.copy(); result["score"] = similarity`. -/
noncomputable def scoreDoc {α : Type} (qe : List ℝ) (doc : Doc α) : Doc α :=
  { doc with score := some (cosineSim qe doc.embedding) }

/-- The ranking loop over the corpus, threading the corpus through as state:
each document passes through unchanged (the code copies before writing the
score), documents with a falsy or empty stored vector are skipped, and each
scored copy is appended to the result list.  Returns (corpus after the loop,
results). -/
noncomputable def rankLoop {α : Type} (qe : List ℝ) :
    List (Doc α) → List (Doc α) × List (Doc α)
  | [] => ([], [])
  | doc :: rest =>
    let tail := rankLoop qe rest
    if doc.embedding.isEmpty then (doc :: tail.1, tail.2)
    else (doc :: tail.1, scoreDoc qe doc :: tail.2)

/-- The sort key `lambda x: x["score"]` (all ranked results carry a score). -/
noncomputable def scoreKey {α : Type} (d : Doc α) : ℝ :=
  d.score.getD 0

/-- Stable descending insertion: the new element goes before the first
element whose key is not greater, so an element inserted into the sorted tail
lands after all earlier elements with an equal key. -/
noncomputable def insertDesc {β : Type} (key : β → ℝ) (a : β) : List β → List β
  | [] => [a]
  | b :: bs => if key b ≤ key a then a :: b :: bs else b :: insertDesc key a bs

/-- Stable sort by descending key, modelling `list.sort(key=..., reverse=True)`
(CPython sorts stably; reverse=True reverses comparisons, not the list, so
ties keep their input order). -/
noncomputable def sortDesc {β : Type} (key : β → ℝ) : List β → List β
  | [] => []
  | a :: as => insertDesc key a (sortDesc key as)

/-- The default result bound `self.top_k`. -/
def defaultTopK : ℕ := 20

/-- `search_similarity(query, documents, top_k)`: empty query or empty corpus
gives no results; a failed query embedding gives no results; otherwise every
corpus entry with a non-empty stored vector is scored onto a copy, the copies
are sorted by descending score (stable), and the first `top_k` are returned.
The first component is the corpus after the call. -/
noncomputable def search_similarity {α : Type} (embQ : String → Option (List ℝ))
    (query : String) (documents : List (Doc α)) (topK : ℕ) :
    List (Doc α) × List (Doc α) :=
  if query = "" || documents.isEmpty then (documents, [])
  else
    match embQ query with
    | none => (documents, [])
    | some qe =>
      let p := rankLoop qe documents
      (p.1, (sortDesc scoreKey p.2).take topK)

/-- Tag every document with its corpus position inside the opaque payload,
to let theorems speak about corpus input order. -/
def tagFrom {α : Type} (n : ℕ) : List (Doc α) → List (Doc (α × ℕ))
  | [] => []
  | d :: ds => { core := (d.core, n), embedding := d.embedding, score := d.score } :: tagFrom (n + 1) ds

/-! ## Semantic search click handler (textsearch.py `_on_search_clicked`) -/

/-- The observable outcome of one search click: no query, a keyword result
table, an early return with the model-error dialog already shown by
`load_model` (the table is not updated), or a semantic result table. -/
inductive SearchOutcome (α : Type) : Type
  | noQuery
  | keyword (rs : List Answer)
  | unavailable
  | semantic (rs : List (Doc α))

/-- `_on_search_clicked` on the stripped query text: keyword mode searches
the record store; semantic mode first ensures the engine is loaded, returning
early (without touching the result table) when `load_model` fails, and
otherwise ranks the full record list.  `docs` stands for the corpus handed
over by `get_all_answers()` and `embedFn` for the embedding function of the
loaded engine. -/
noncomputable def onSearchClicked {α : Type} (em : EmbedManager) (d : ModelDir)
    (dm : DataManager) (embedFn : String → Option (List ℝ)) (keywordMode : Bool)
    (query : String) (docs : List (Doc α)) : EmbedManager × SearchOutcome α :=
  if query = "" then (em, .noQuery)
  else if keywordMode then (em, .keyword (search_answers dm query))
  else if !em.sessionSome then
    let p := load_model d em
    if !p.2 then (p.1, .unavailable)
    else (p.1, .semantic (search_similarity embedFn query docs defaultTopK).2)
  else (em, .semantic (search_similarity embedFn query docs defaultTopK).2)

/-! ## Helper definitions for stating index invariants, and concrete fixtures -/

/-- The effective first-level key of a record in the category tree. -/
def effCat1 (rec : Answer) : String := pyOr rec.cat1 "Unknown"

/-- The effective second-level key of a record in the category tree. -/
def effCat2 (rec : Answer) : String := pyOr rec.cat2 "Unknown"

/-- The effective third-level key of a record in the category tree. -/
def effCat3 (rec : Answer) : String := pyOr rec.cat3 "Unknown"

/-- The second-level map under `c1`, or empty when `c1` is unknown. -/
def subAt1 (t : Tree3) (c1 : String) : List (String × List (String × List Answer)) :=
  (aFind t c1).getD []

/-- The third-level map under `(c1, c2)`, or empty. -/
def subAt2 (t : Tree3) (c1 c2 : String) : List (String × List Answer) :=
  (aFind (subAt1 t c1) c2).getD []

/-- The record list at the leaf `(c1, c2, c3)`, or empty. -/
def leafAt (t : Tree3) (c1 c2 c3 : String) : List Answer :=
  (aFind (subAt2 t c1 c2) c3).getD []

/-- A sample loaded answer record used in concrete scenarios. -/
def ansBase : Answer :=
  { id := some 1, code := some "A1", cat1 := some "Cat", cat2 := some "Sub",
    cat3 := some "Leaf", title := some "TitleText", maintext := some "BodyText",
    agency1 := none, agency2 := none, embedding := Jsonv.floatArr [] }

/-- A sample raw answer row whose stored embedding text decodes to valid JSON
that is not an array of floats (for example the text `5`). -/
def rowOther : AnswerRow :=
  { id := some 1, code := some "A1", cat1 := some "Cat", cat2 := some "Sub",
    cat3 := some "Leaf", title := some "TitleText", maintext := some "BodyText",
    agency1 := none, agency2 := none, embedding := EmbRaw.valid Jsonv.other }

/-- A model directory with all assets present and a fully valid configuration. -/
def mdGood : ModelDir :=
  { files := ["model.onnx", "tokenizer.json", "model_info"], infoParses := true,
    infoKeys := requiredConfigKeys, tokenizerLoadOk := true, sessionLoadOk := true }

/-- The same directory with the inference graph file absent. -/
def mdBad : ModelDir :=
  { mdGood with files := ["tokenizer.json", "model_info"] }

/-- A data directory in which only the intro/closing source is absent. -/
def ddIntroMissing : DataDir :=
  { files := ["answersembed.db", "agencies.db", "conjunctions.json"],
    answersRows := [], agenciesRows := [], introRows := [], conjunctions := [] }

/-- A data directory with all four sources present and one answer row whose
stored embedding is valid JSON of a non-array shape. -/
def ddAllPresent : DataDir :=
  { files := requiredDataFiles, answersRows := [rowOther], agenciesRows := [],
    introRows := [], conjunctions := [] }

/-! ## Engine lock-out (claim C1) -/

/-- Any single non-validating operation preserves the locked-out state. -/
theorem engineStep_locked (m : EmbedManager) (op : EngineOp)
    (h1 : m.is_valid_at_startup = false) (h2 : m.sessionSome = false)
    (h3 : m.tokenizerSome = false) (hop : op.isCheckFiles = false) :
    (engineStep m op).is_valid_at_startup = false ∧
    (engineStep m op).sessionSome = false ∧ (engineStep m op).tokenizerSome = false := by
  cases op with
  | loadModelOp d => simp [engineStep, load_model, h1, h2, h3]
  | unloadModelOp => simp [engineStep, unload_model, h1]
  | checkFilesOp d => simp [EngineOp.isCheckFiles] at hop
  | getEmbOp d => simp [engineStep, load_model, h1, h2, h3]

/-- C1 (amended).  After a failed startup validation the engine is locked out:
along every subsequent sequence of engine operations that does not re-run
`check_files` directly, the startup flag stays cleared, the engine never
reaches the Loaded state, and every `load_model` call returns failure —
regardless of the model directory contents, so in particular even after the
missing assets or configuration keys appear.  (A direct successful re-run of
`check_files` would clear the lock-out; see the counterexample.) -/
theorem c1_lockout_amended (m : EmbedManager) (ops : List EngineOp)
    (h1 : m.is_valid_at_startup = false) (h2 : m.sessionSome = false)
    (h3 : m.tokenizerSome = false) (hops : ∀ op ∈ ops, op.isCheckFiles = false) :
    (runEngine m ops).is_valid_at_startup = false ∧
    (runEngine m ops).isLoaded = false ∧
    ∀ d : ModelDir, (load_model d (runEngine m ops)).2 = false := by
  induction ops generalizing m with
  | nil =>
    refine ⟨h1, ?_, ?_⟩
    · simp [runEngine, EmbedManager.isLoaded, h2]
    · intro d; simp [runEngine, load_model, h1]
  | cons op rest ih =>
    obtain ⟨g1, g2, g3⟩ := engineStep_locked m op h1 h2 h3 (hops op (List.mem_cons_self op rest))
    have h := ih (engineStep m op) g1 g2 g3 (fun o ho => hops o (List.mem_cons_of_mem op ho))
    simpa [runEngine] using h

/-- Witness for C1 (amended): a concrete engine that failed startup validation
because the inference graph file was absent, then a load attempt, a lazy
embedding load attempt, an unload, and another load attempt against a now
fully valid model directory — the flag stays cleared, the engine stays
unloaded, and a further load still fails. -/
theorem c1_lockout_amended_witness :
    (runEngine (check_files mdBad EmbedManager.init).1
      [EngineOp.loadModelOp mdGood, EngineOp.getEmbOp mdGood, EngineOp.unloadModelOp,
        EngineOp.loadModelOp mdGood]).is_valid_at_startup = false ∧
    (runEngine (check_files mdBad EmbedManager.init).1
      [EngineOp.loadModelOp mdGood, EngineOp.getEmbOp mdGood, EngineOp.unloadModelOp,
        EngineOp.loadModelOp mdGood]).isLoaded = false ∧
    (load_model mdGood (runEngine (check_files mdBad EmbedManager.init).1
      [EngineOp.loadModelOp mdGood, EngineOp.getEmbOp mdGood, EngineOp.unloadModelOp,
        EngineOp.loadModelOp mdGood])).2 = false := by
  have h := c1_lockout_amended (check_files mdBad EmbedManager.init).1
    [EngineOp.loadModelOp mdGood, EngineOp.getEmbOp mdGood, EngineOp.unloadModelOp,
      EngineOp.loadModelOp mdGood]
    (by decide) (by decide) (by decide) (by decide)
  exact ⟨h.1, h.2.1, h.2.2 mdGood⟩

/-- Counterexample to C1 as stated: validation fails once (graph file absent),
the assets then appear and validation is retried in the same run —
`check_files` has no lock-out guard, so the retry succeeds, re-sets the
startup flag, and the very next `load_model` returns success and reaches the
Loaded state. -/
theorem c1_retry_unlocks_counterexample :
    (check_files mdBad EmbedManager.init).2 = false ∧
    (check_files mdGood (check_files mdBad EmbedManager.init).1).2 = true ∧
    (load_model mdGood (check_files mdGood (check_files mdBad EmbedManager.init).1).1).2 = true ∧
    (load_model mdGood (check_files mdGood (check_files mdBad EmbedManager.init).1).1).1.isLoaded
      = true := by decide

/-! ## Atomic load failure (claim C3) -/

/-- C3.  When at least one required data source is absent, `load_all` raises
with exactly the absent source names and leaves the manager — containers and
indexes alike — completely unchanged. -/
theorem c3_load_all_missing_sources (d : DataDir) (m : DataManager)
    (h : ∃ f ∈ requiredDataFiles, d.files.contains f = false) :
    load_all d m = (m, some (requiredDataFiles.filter (fun f => !(d.files.contains f)))) ∧
    requiredDataFiles.filter (fun f => !(d.files.contains f)) ≠ [] ∧
    ∀ s : String, s ∈ requiredDataFiles.filter (fun f => !(d.files.contains f)) ↔
      s ∈ requiredDataFiles ∧ d.files.contains s = false := by
  obtain ⟨f, hf, hcon⟩ := h
  have hmem : f ∈ requiredDataFiles.filter (fun f => !(d.files.contains f)) := by
    rw [List.mem_filter]
    exact ⟨hf, by simpa using hcon⟩
  have hne : requiredDataFiles.filter (fun f => !(d.files.contains f)) ≠ [] := by
    intro heq
    rw [heq] at hmem
    exact (List.not_mem_nil f) hmem
  have hE : (requiredDataFiles.filter (fun f => !(d.files.contains f))).isEmpty = false := by
    rcases hl : requiredDataFiles.filter (fun f => !(d.files.contains f)) with _ | ⟨a, as⟩
    · exact absurd hl hne
    · rfl
  refine ⟨?_, hne, ?_⟩
  · simp only [load_all]
    rw [hE]
    simp
  · intro s
    simp [List.mem_filter]

/-- Witness for C3, matching the specification scenario: only the
intro/closing source is missing, the error payload names exactly it, and the
manager is the untouched fresh state. -/
theorem c3_load_all_missing_sources_witness :
    load_all ddIntroMissing DataManager.init = (DataManager.init, some ["introclosing.db"]) := by
  have h := (c3_load_all_missing_sources ddIntroMissing DataManager.init
    ⟨"introclosing.db", by decide, by decide⟩).1
  rw [h]
  rfl

/-! ## Embedding parse on load (claim C6) -/

/-- C6 (amended).  A stored embedding cell that is NULL, empty, or raises a
JSON decode error is loaded as the empty vector, and a cell that decodes to
valid JSON keeps its decoded value even when that value is not an array of
floats; in every case the load itself completes — whenever all four sources
exist, `load_all` raises nothing and loads every row. -/
theorem c6_embedding_parse_amended :
    (∀ j : Jsonv, loadEmbedding (EmbRaw.valid j) = j) ∧
    loadEmbedding EmbRaw.null = Jsonv.floatArr [] ∧
    loadEmbedding EmbRaw.emptyStr = Jsonv.floatArr [] ∧
    loadEmbedding EmbRaw.invalid = Jsonv.floatArr [] ∧
    ∀ (d : DataDir) (m : DataManager),
      requiredDataFiles.all (fun f => d.files.contains f) = true →
      (load_all d m).2 = none ∧ (load_all d m).1.answers = loadAnswers d.answersRows := by
  refine ⟨fun j => rfl, rfl, rfl, rfl, ?_⟩
  intro d m hall
  have hfilter : requiredDataFiles.filter (fun f => !(d.files.contains f)) = [] := by
    rw [List.filter_eq_nil_iff]
    intro a ha
    have hc := (List.all_eq_true.mp hall) a ha
    simpa using hc
  have hE : (requiredDataFiles.filter (fun f => !(d.files.contains f))).isEmpty = true := by
    rw [hfilter]
    rfl
  constructor
  · simp only [load_all]
    rw [hE]
    simp
  · simp only [load_all]
    rw [hE]
    simp [buildIndexes]

/-- Witness for C6 (amended): a directory with all four sources and a single
row whose embedding text decodes to non-array JSON still loads fully without
an error. -/
theorem c6_embedding_parse_amended_witness :
    (load_all ddAllPresent DataManager.init).2 = none ∧
    (load_all ddAllPresent DataManager.init).1.answers = loadAnswers [rowOther] :=
  c6_embedding_parse_amended.2.2.2.2 ddAllPresent DataManager.init (by decide)

/-- Counterexample to C6 as stated: a stored embedding that is valid JSON but
not an array of floats is not replaced by the empty vector — the decoded
value is kept on the loaded record. -/
theorem c6_nonarray_json_counterexample :
    (loadAnswerRow rowOther).embedding = Jsonv.other ∧
    Jsonv.other ≠ Jsonv.floatArr [] := by decide

/-! ## L2 normalization (claim C8) -/

/-- C8.  The normalization step of the embedding pipeline is idempotent: a
vector whose norm is already 1 is returned exactly unchanged (division by a
unit norm), and a vector with zero norm is returned unchanged (the positive
guard refuses the division). -/
theorem c8_l2normalize_idempotent (v : List ℝ) :
    (l2norm v = 1 → l2normalize v = v) ∧ (l2norm v = 0 → l2normalize v = v) := by
  constructor
  · intro h
    simp [l2normalize, h]
  · intro h
    simp [l2normalize, h]

/-- Witness for C8 at the unit vector `[1, 0]` and the empty vector. -/
theorem c8_l2normalize_idempotent_witness :
    l2normalize [(1 : ℝ), 0] = [1, 0] ∧ l2normalize ([] : List ℝ) = [] := by
  constructor
  · refine (c8_l2normalize_idempotent [(1 : ℝ), 0]).1 ?_
    show Real.sqrt (sumSq [(1 : ℝ), 0]) = 1
    rw [show sumSq [(1 : ℝ), 0] = 1 by norm_num [sumSq]]
    exact Real.sqrt_one
  · refine (c8_l2normalize_idempotent ([] : List ℝ)).2 ?_
    show Real.sqrt (sumSq ([] : List ℝ)) = 0
    rw [show sumSq ([] : List ℝ) = 0 by norm_num [sumSq]]
    exact Real.sqrt_zero

/-! ## Ranker lemmas (claims C2 and C10) -/

/-- The ranking loop hands every corpus document through unchanged. -/
theorem rankLoop_fst {α : Type} (qe : List ℝ) (docs : List (Doc α)) :
    (rankLoop qe docs).1 = docs := by
  induction docs with
  | nil => rfl
  | cons doc rest ih => cases hb : doc.embedding.isEmpty <;> simp [rankLoop, hb, ih]

/-- The ranking loop produces exactly the scored copies of the documents with
a non-empty stored vector, in corpus order. -/
theorem rankLoop_snd {α : Type} (qe : List ℝ) (docs : List (Doc α)) :
    (rankLoop qe docs).2 =
      (docs.filter (fun d => !d.embedding.isEmpty)).map (scoreDoc qe) := by
  induction docs with
  | nil => rfl
  | cons doc rest ih => cases hb : doc.embedding.isEmpty <;> simp [rankLoop, hb, ih]

/-- Membership through stable descending insertion. -/
theorem mem_insertDesc {β : Type} (key : β → ℝ) (a x : β) (l : List β) :
    x ∈ insertDesc key a l ↔ x = a ∨ x ∈ l := by
  induction l with
  | nil => simp [insertDesc]
  | cons b bs ih =>
    by_cases h : key b ≤ key a
    · simp [insertDesc, h]
    · simp only [insertDesc, if_neg h, List.mem_cons, ih]
      tauto

/-- Membership through the stable descending sort. -/
theorem mem_sortDesc {β : Type} (key : β → ℝ) (x : β) (l : List β) :
    x ∈ sortDesc key l ↔ x ∈ l := by
  induction l with
  | nil => simp [sortDesc]
  | cons a as ih => simp [sortDesc, mem_insertDesc, ih]

/-- Insertion preserves the descending order. -/
theorem insertDesc_sorted {β : Type} (key : β → ℝ) (a : β) (l : List β)
    (h : l.Pairwise (fun x y => key y ≤ key x)) :
    (insertDesc key a l).Pairwise (fun x y => key y ≤ key x) := by
  induction l with
  | nil => simp [insertDesc]
  | cons b bs ih =>
    rcases List.pairwise_cons.mp h with ⟨hb, hbs⟩
    by_cases hc : key b ≤ key a
    · simp only [insertDesc, if_pos hc]
      refine List.Pairwise.cons ?_ h
      intro c hc'
      rcases List.mem_cons.mp hc' with rfl | hcbs
      · exact hc
      · exact le_trans (hb c hcbs) hc
    · simp only [insertDesc, if_neg hc]
      refine List.Pairwise.cons ?_ (ih hbs)
      intro c hc'
      rcases (mem_insertDesc key a c bs).mp hc' with rfl | hcbs
      · exact le_of_lt (lt_of_not_le hc)
      · exact hb c hcbs

/-- The descending sort is sorted. -/
theorem sortDesc_sorted {β : Type} (key : β → ℝ) (l : List β) :
    (sortDesc key l).Pairwise (fun x y => key y ≤ key x) := by
  induction l with
  | nil => simp [sortDesc]
  | cons a as ih => exact insertDesc_sorted key a _ ih

/-- Insertion stability: when the inserted element relates (under `S`) to
every element of equal key already present, all equal-key pairs of the result
still relate under `S`. -/
theorem insertDesc_stable {β : Type} (key : β → ℝ) (S : β → β → Prop) (a : β) (l : List β)
    (h : l.Pairwise (fun x y => key x = key y → S x y))
    (ha : ∀ b ∈ l, key a = key b → S a b) :
    (insertDesc key a l).Pairwise (fun x y => key x = key y → S x y) := by
  induction l with
  | nil => simp [insertDesc]
  | cons b bs ih =>
    rcases List.pairwise_cons.mp h with ⟨hb, hbs⟩
    by_cases hc : key b ≤ key a
    · simp only [insertDesc, if_pos hc]
      refine List.Pairwise.cons ?_ h
      intro c hc'
      rcases List.mem_cons.mp hc' with rfl | hcbs
      · exact ha c (List.mem_cons_self _ _)
      · exact ha c (List.mem_cons_of_mem _ hcbs)
    · simp only [insertDesc, if_neg hc]
      refine List.Pairwise.cons ?_
        (ih hbs (fun c hcbs hk => ha c (List.mem_cons_of_mem _ hcbs) hk))
      intro c hc' hk
      rcases (mem_insertDesc key a c bs).mp hc' with rfl | hcbs
      · exact absurd (le_of_eq hk) hc
      · exact hb c hcbs hk

/-- Sort stability: any relation holding pairwise on the input keeps holding,
after sorting, on every pair whose keys are equal — ties keep input order. -/
theorem sortDesc_stable {β : Type} (key : β → ℝ) (S : β → β → Prop) (l : List β)
    (h : l.Pairwise S) :
    (sortDesc key l).Pairwise (fun x y => key x = key y → S x y) := by
  induction l with
  | nil => simp [sortDesc]
  | cons a as ih =>
    rcases List.pairwise_cons.mp h with ⟨hafwd, has⟩
    exact insertDesc_stable key S a (sortDesc key as) (ih has)
      (fun b hb _ => hafwd b ((mem_sortDesc key b as).mp hb))

/-- Position tags start at the offset. -/
theorem tagFrom_core_le {α : Type} (n : ℕ) (docs : List (Doc α)) :
    ∀ x ∈ tagFrom n docs, n ≤ x.core.2 := by
  induction docs generalizing n with
  | nil => simp [tagFrom]
  | cons d ds ih =>
    intro x hx
    rcases List.mem_cons.mp (by simpa [tagFrom] using hx) with rfl | hx'
    · simp
    · exact le_trans (Nat.le_succ n) (ih (n + 1) x hx')

/-- Position tags strictly increase along the tagged corpus. -/
theorem tagFrom_pairwise {α : Type} (n : ℕ) (docs : List (Doc α)) :
    (tagFrom n docs).Pairwise (fun a b => a.core.2 < b.core.2) := by
  induction docs generalizing n with
  | nil => simp [tagFrom]
  | cons d ds ih =>
    simp only [tagFrom]
    refine List.Pairwise.cons ?_ (ih (n + 1))
    intro b hb
    simpa using lt_of_lt_of_le (Nat.lt_succ_self n) (tagFrom_core_le (n + 1) ds b hb)

/-- Shape of the ranked result list: empty, or the top slice of the stable
descending sort of the scored copies of the non-empty-vector documents. -/
theorem search_similarity_snd_shape {α : Type} (embQ : String → Option (List ℝ))
    (query : String) (docs : List (Doc α)) (topK : ℕ) :
    (search_similarity embQ query docs topK).2 = [] ∨
    ∃ qe, embQ query = some qe ∧
      (search_similarity embQ query docs topK).2 =
        (sortDesc scoreKey
          ((docs.filter (fun d => !d.embedding.isEmpty)).map (scoreDoc qe))).take topK := by
  unfold search_similarity
  split
  · exact Or.inl rfl
  · rcases hq : embQ query with _ | qe
    · simp [hq]
    · right
      exact ⟨qe, rfl, by simp [hq, rankLoop_snd]⟩

/-- C10.  Ranking never mutates the corpus: the corpus after the call is the
input corpus unchanged (no score key is written onto a stored record), and
the computed score is carried only on the returned per-result copies, each of
which does carry one. -/
theorem c10_corpus_unchanged (α : Type) (embQ : String → Option (List ℝ))
    (query : String) (docs : List (Doc α)) (topK : ℕ) :
    (search_similarity embQ query docs topK).1 = docs ∧
    ((search_similarity embQ query docs topK).2.all fun d => d.score.isSome) = true := by
  constructor
  · unfold search_similarity
    split
    · rfl
    · rcases hq : embQ query with _ | qe
      · simp [hq]
      · simp [hq, rankLoop_fst]
  · rcases search_similarity_snd_shape embQ query docs topK with h | ⟨qe, _, h⟩
    · rw [h]; rfl
    · rw [h, List.all_eq_true]
      intro d hd
      have hd2 : d ∈ sortDesc scoreKey
          ((docs.filter (fun d => !d.embedding.isEmpty)).map (scoreDoc qe)) :=
        List.take_subset _ _ hd
      rcases List.mem_map.mp ((mem_sortDesc _ _ _).mp hd2) with ⟨d0, _, rfl⟩
      rfl

/-- C2.  For every query, corpus and bound: the ranked result list has at most
`topK` entries; it is sorted by descending score; every returned entry has a
non-empty stored vector (entries with an empty or absent vector never appear);
and on a corpus tagged with its input positions, any two returned entries
with equal scores appear in increasing corpus position — the sort is stable. -/
theorem c2_rank_bounded_sorted_stable (α : Type) (embQ : String → Option (List ℝ))
    (query : String) (docs : List (Doc α)) (topK : ℕ) :
    (search_similarity embQ query docs topK).2.length ≤ topK ∧
    (search_similarity embQ query docs topK).2.Pairwise
      (fun a b => scoreKey b ≤ scoreKey a) ∧
    ((search_similarity embQ query docs topK).2.all fun d => !d.embedding.isEmpty) = true ∧
    (search_similarity embQ query (tagFrom 0 docs) topK).2.Pairwise
      (fun a b => scoreKey a = scoreKey b → a.core.2 < b.core.2) := by
  refine ⟨?_, ?_, ?_, ?_⟩
  · rcases search_similarity_snd_shape embQ query docs topK with h | ⟨qe, _, h⟩
    · simp [h]
    · rw [h]
      exact List.length_take_le _ _
  · rcases search_similarity_snd_shape embQ query docs topK with h | ⟨qe, _, h⟩
    · simp [h]
    · rw [h]
      exact (sortDesc_sorted scoreKey _).sublist (List.take_sublist _ _)
  · rcases search_similarity_snd_shape embQ query docs topK with h | ⟨qe, _, h⟩
    · rw [h]; rfl
    · rw [h, List.all_eq_true]
      intro d hd
      have hd2 : d ∈ sortDesc scoreKey
          ((docs.filter (fun d => !d.embedding.isEmpty)).map (scoreDoc qe)) :=
        List.take_subset _ _ hd
      rcases List.mem_map.mp ((mem_sortDesc _ _ _).mp hd2) with ⟨d0, hd0, rfl⟩
      exact (List.mem_filter.mp hd0).2
  · rcases search_similarity_snd_shape embQ query (tagFrom 0 docs) topK with h | ⟨qe, _, h⟩
    · simp [h]
    · rw [h]
      refine List.Pairwise.sublist (List.take_sublist _ _) ?_
      refine sortDesc_stable scoreKey _ _ ?_
      rw [List.pairwise_map]
      exact ((tagFrom_pairwise 0 docs).filter _)

/-! ## Association list lemmas -/

/-- Lookup after insert-or-update. -/
theorem aFind_upsert {κ β : Type} [DecidableEq κ] (l : List (κ × β)) (k k' : κ)
    (f : Option β → β) :
    aFind (upsert l k f) k' = if k' = k then some (f (aFind l k)) else aFind l k' := by
  induction l with
  | nil =>
    by_cases h : k' = k
    · subst h; simp [upsert, aFind]
    · simp [upsert, aFind, h, Ne.symm h]
  | cons p rest ih =>
    obtain ⟨a, v⟩ := p
    by_cases hak : a = k
    · subst hak
      by_cases h2 : k' = a
      · subst h2; simp [upsert, aFind]
      · simp [upsert, aFind, h2, Ne.symm h2]
    · by_cases h2 : a = k'
      · subst h2
        simp [upsert, aFind, hak, Ne.symm hak]
      · simp [upsert, aFind, hak, h2, ih]

/-- Keys after insert-or-update: unchanged when present, appended otherwise. -/
theorem upsert_keys {κ β : Type} [DecidableEq κ] (l : List (κ × β)) (k : κ)
    (f : Option β → β) :
    (upsert l k f).map Prod.fst =
      if k ∈ l.map Prod.fst then l.map Prod.fst else l.map Prod.fst ++ [k] := by
  induction l with
  | nil => simp [upsert]
  | cons p rest ih =>
    obtain ⟨a, v⟩ := p
    by_cases h : a = k
    · subst h; simp [upsert]
    · simp only [upsert, if_neg h, List.map_cons, List.mem_cons, ih]
      by_cases h2 : k ∈ rest.map Prod.fst
      · simp [h2, Ne.symm h]
      · simp [h2, Ne.symm h]

/-- Key membership after insert-or-update. -/
theorem mem_upsert_keys {κ β : Type} [DecidableEq κ] (l : List (κ × β)) (k : κ)
    (f : Option β → β) (x : κ) :
    x ∈ (upsert l k f).map Prod.fst ↔ x ∈ l.map Prod.fst ∨ x = k := by
  rw [upsert_keys]
  by_cases h : k ∈ l.map Prod.fst
  · rw [if_pos h]
    constructor
    · exact Or.inl
    · rintro (hx | rfl)
      · exact hx
      · exact h
  · rw [if_neg h]
    simp

/-- Insert-or-update preserves distinctness of keys. -/
theorem upsert_keys_nodup {κ β : Type} [DecidableEq κ] (l : List (κ × β)) (k : κ)
    (f : Option β → β) (h : (l.map Prod.fst).Nodup) :
    ((upsert l k f).map Prod.fst).Nodup := by
  rw [upsert_keys]
  by_cases hk : k ∈ l.map Prod.fst
  · simpa [hk] using h
  · rw [if_neg hk]
    exact h.append (List.nodup_singleton k) (by simpa [List.disjoint_singleton] using hk)

/-- Lookup misses exactly the keys that are absent. -/
theorem aFind_eq_none {κ β : Type} [DecidableEq κ] (l : List (κ × β)) (k : κ) :
    aFind l k = none ↔ k ∉ l.map Prod.fst := by
  induction l with
  | nil => simp [aFind]
  | cons p rest ih =>
    obtain ⟨a, v⟩ := p
    by_cases h : a = k
    · subst h; simp [aFind]
    · simp [aFind, h, ih, Ne.symm h]

/-! ## Category tree invariants -/

/-- Effect of one record insertion on the level-1 subtree at `c1`. -/
theorem subAt1_insert (t : Tree3) (rec : Answer) (c1 : String) :
    subAt1 (insertAnswerIdx t rec) c1 =
      if c1 = effCat1 rec then
        upsert (subAt1 t c1) (effCat2 rec)
          (fun sub2 => upsert (sub2.getD []) (effCat3 rec) (fun recs => recs.getD [] ++ [rec]))
      else subAt1 t c1 := by
  unfold subAt1 insertAnswerIdx
  rw [show pyOr rec.cat1 "Unknown" = effCat1 rec from rfl,
    show pyOr rec.cat2 "Unknown" = effCat2 rec from rfl,
    show pyOr rec.cat3 "Unknown" = effCat3 rec from rfl,
    aFind_upsert]
  by_cases h : c1 = effCat1 rec
  · simp [h]
  · simp [h]

/-- Effect of one record insertion on the level-2 subtree at `(c1, c2)`. -/
theorem subAt2_insert (t : Tree3) (rec : Answer) (c1 c2 : String) :
    subAt2 (insertAnswerIdx t rec) c1 c2 =
      if c1 = effCat1 rec ∧ c2 = effCat2 rec then
        upsert (subAt2 t c1 c2) (effCat3 rec) (fun recs => recs.getD [] ++ [rec])
      else subAt2 t c1 c2 := by
  unfold subAt2
  rw [subAt1_insert]
  by_cases h1 : c1 = effCat1 rec
  · rw [if_pos h1, aFind_upsert]
    by_cases h2 : c2 = effCat2 rec
    · simp [h1, h2]
    · simp [h1, h2]
  · simp [h1]

/-- Effect of one record insertion on the leaf list at `(c1, c2, c3)`. -/
theorem leafAt_insert (t : Tree3) (rec : Answer) (c1 c2 c3 : String) :
    leafAt (insertAnswerIdx t rec) c1 c2 c3 =
      if c1 = effCat1 rec ∧ c2 = effCat2 rec ∧ c3 = effCat3 rec then
        leafAt t c1 c2 c3 ++ [rec]
      else leafAt t c1 c2 c3 := by
  unfold leafAt
  rw [subAt2_insert]
  by_cases h12 : c1 = effCat1 rec ∧ c2 = effCat2 rec
  · rw [if_pos h12, aFind_upsert]
    by_cases h3 : c3 = effCat3 rec
    · simp [h12, h3]
    · simp [h12, h3]
  · rw [if_neg h12, if_neg (fun hh => h12 ⟨hh.1, hh.2.1⟩)]

/-- The leaf at any path collects exactly the records whose effective
category path matches, in storage order, on top of the accumulator. -/
theorem leafAt_fold (answers : List Answer) (t : Tree3) (c1 c2 c3 : String) :
    leafAt (answers.foldl insertAnswerIdx t) c1 c2 c3 =
      leafAt t c1 c2 c3 ++
        answers.filter (fun rec =>
          decide (c1 = effCat1 rec ∧ c2 = effCat2 rec ∧ c3 = effCat3 rec)) := by
  induction answers generalizing t with
  | nil => simp
  | cons rec rest ih =>
    rw [List.foldl_cons, ih, leafAt_insert]
    by_cases h : c1 = effCat1 rec ∧ c2 = effCat2 rec ∧ c3 = effCat3 rec
    · simp [h, List.filter_cons]
    · simp [h, List.filter_cons]

/-- Level-1 key membership over the build fold. -/
theorem mem_keys1_fold (answers : List Answer) (t : Tree3) (x : String) :
    x ∈ (answers.foldl insertAnswerIdx t).map Prod.fst ↔
      x ∈ t.map Prod.fst ∨ ∃ rec ∈ answers, effCat1 rec = x := by
  induction answers generalizing t with
  | nil => simp
  | cons rec rest ih =>
    rw [List.foldl_cons, ih]
    have hstep : x ∈ (insertAnswerIdx t rec).map Prod.fst ↔
        x ∈ t.map Prod.fst ∨ effCat1 rec = x := by
      unfold insertAnswerIdx
      rw [show pyOr rec.cat1 "Unknown" = effCat1 rec from rfl, mem_upsert_keys]
      simp [eq_comm]
    rw [hstep]
    simp only [List.mem_cons]
    constructor
    · rintro (⟨hx | hx⟩ | ⟨r, hr, hrx⟩)
      · exact Or.inl hx
      · exact Or.inr ⟨rec, Or.inl rfl, hx⟩
      · exact Or.inr ⟨r, Or.inr hr, hrx⟩
    · rintro (hx | ⟨r, (rfl | hr), hrx⟩)
      · exact Or.inl (Or.inl hx)
      · exact Or.inl (Or.inr hrx)
      · exact Or.inr ⟨r, hr, hrx⟩

/-- Level-2 key membership over the build fold. -/
theorem mem_keys2_fold (answers : List Answer) (t : Tree3) (c1 x : String) :
    x ∈ (subAt1 (answers.foldl insertAnswerIdx t) c1).map Prod.fst ↔
      x ∈ (subAt1 t c1).map Prod.fst ∨
        ∃ rec ∈ answers, c1 = effCat1 rec ∧ x = effCat2 rec := by
  induction answers generalizing t with
  | nil => simp
  | cons rec rest ih =>
    rw [List.foldl_cons, ih, subAt1_insert]
    by_cases h1 : c1 = effCat1 rec
    · rw [if_pos h1, mem_upsert_keys]
      simp only [List.mem_cons]
      constructor
      · rintro (⟨hx | hx⟩ | ⟨r, hr, hrx⟩)
        · exact Or.inl hx
        · exact Or.inr ⟨rec, Or.inl rfl, h1, hx⟩
        · exact Or.inr ⟨r, Or.inr hr, hrx⟩
      · rintro (hx | ⟨r, (rfl | hr), hrx⟩)
        · exact Or.inl (Or.inl hx)
        · exact Or.inl (Or.inr hrx.2)
        · exact Or.inr ⟨r, hr, hrx⟩
    · rw [if_neg h1]
      simp only [List.mem_cons]
      constructor
      · rintro (hx | ⟨r, hr, hrx⟩)
        · exact Or.inl hx
        · exact Or.inr ⟨r, Or.inr hr, hrx⟩
      · rintro (hx | ⟨r, (rfl | hr), hrx⟩)
        · exact Or.inl hx
        · exact absurd hrx.1 h1
        · exact Or.inr ⟨r, hr, hrx⟩

/-- Level-3 key membership over the build fold. -/
theorem mem_keys3_fold (answers : List Answer) (t : Tree3) (c1 c2 x : String) :
    x ∈ (subAt2 (answers.foldl insertAnswerIdx t) c1 c2).map Prod.fst ↔
      x ∈ (subAt2 t c1 c2).map Prod.fst ∨
        ∃ rec ∈ answers, c1 = effCat1 rec ∧ c2 = effCat2 rec ∧ x = effCat3 rec := by
  induction answers generalizing t with
  | nil => simp
  | cons rec rest ih =>
    rw [List.foldl_cons, ih, subAt2_insert]
    by_cases h12 : c1 = effCat1 rec ∧ c2 = effCat2 rec
    · rw [if_pos h12, mem_upsert_keys]
      simp only [List.mem_cons]
      constructor
      · rintro (⟨hx | hx⟩ | ⟨r, hr, hrx⟩)
        · exact Or.inl hx
        · exact Or.inr ⟨rec, Or.inl rfl, h12.1, h12.2, hx⟩
        · exact Or.inr ⟨r, Or.inr hr, hrx⟩
      · rintro (hx | ⟨r, (rfl | hr), hrx⟩)
        · exact Or.inl (Or.inl hx)
        · exact Or.inl (Or.inr hrx.2.2)
        · exact Or.inr ⟨r, hr, hrx⟩
    · rw [if_neg h12]
      simp only [List.mem_cons]
      constructor
      · rintro (hx | ⟨r, hr, hrx⟩)
        · exact Or.inl hx
        · exact Or.inr ⟨r, Or.inr hr, hrx⟩
      · rintro (hx | ⟨r, (rfl | hr), hrx⟩)
        · exact Or.inl hx
        · exact absurd ⟨hrx.1, hrx.2.1⟩ h12
        · exact Or.inr ⟨r, hr, hrx⟩

/-- The build fold keeps level-1 keys distinct. -/
theorem keys1_fold_nodup (answers : List Answer) (t : Tree3)
    (h : (t.map Prod.fst).Nodup) :
    ((answers.foldl insertAnswerIdx t).map Prod.fst).Nodup := by
  induction answers generalizing t with
  | nil => exact h
  | cons rec rest ih =>
    rw [List.foldl_cons]
    exact ih _ (upsert_keys_nodup _ _ _ h)

/-- The public leaf lookup agrees with `leafAt` in every case, including the
caught KeyError cases. -/
theorem get_answers_eq_leafAt (m' : DataManager) (c1 c2 c3 : String) :
    get_answers_in_cat3 m' c2 c3 c1 = leafAt m'.index_tree c1 c2 c3 := by
  unfold get_answers_in_cat3 leafAt subAt2 subAt1
  cases h1 : aFind m'.index_tree c1 with
  | none => simp [aFind]
  | some sub =>
    cases h2 : aFind sub c2 with
    | none => simp [h2, aFind]
    | some sub2 =>
      cases h3 : aFind sub2 c3 with
      | none => simp [h2, h3]
      | some recs => simp [h2, h3]

/-! ## Category listing (claim C4) -/

/-- C4 (amended).  `get_cat1_list` returns, without duplicates, exactly the
effective top-level keys of the loaded records: the distinct non-empty cat1
values, with the reserved sentinel standing in for every record whose cat1 is
NULL or the empty string (Python falsiness, `rec.get("cat1") or "Unknown"`). -/
theorem c4_cat1_list_amended (m : DataManager) (x : String) :
    (get_cat1_list (buildIndexes m)).Nodup ∧
    (x ∈ get_cat1_list (buildIndexes m) ↔
      ∃ rec ∈ m.answers, pyOr rec.cat1 "Unknown" = x) := by
  have hg : get_cat1_list (buildIndexes m) = (buildTree m.answers).map Prod.fst := rfl
  constructor
  · rw [hg]
    exact keys1_fold_nodup m.answers [] (by simp)
  · rw [hg]
    have h := mem_keys1_fold m.answers [] x
    simpa [buildTree, effCat1] using h

/-- Counterexample to C4 as stated: a record whose cat1 is present but equal
to the empty string — the sentinel appears in the top-level list although no
record has a missing (NULL) cat1, and the empty string, though a cat1 value
present among the records, does not appear in the list. -/
theorem c4_empty_cat1_counterexample :
    get_cat1_list (buildIndexes
      { DataManager.init with answers := [{ ansBase with cat1 := some "" }] }) = ["Unknown"] ∧
    "" ∉ get_cat1_list (buildIndexes
      { DataManager.init with answers := [{ ansBase with cat1 := some "" }] }) ∧
    (∀ rec ∈ [({ ansBase with cat1 := some "" } : Answer)],
      rec.cat1 ≠ none ∧ rec.cat1 ≠ some "Unknown") := by decide

/-! ## Total lookups (claim C9) -/

/-- C9.  The three path lookups are total functions (no exception can escape:
the source guards the first level by membership tests and catches the inner
KeyError) and return the empty result on every path component with no
matching record. -/
theorem c9_lookup_total_empty (m : DataManager) (c1 c2 c3 : String) :
    ((∀ rec ∈ m.answers, pyOr rec.cat1 "Unknown" ≠ c1) →
        get_cat2_list (buildIndexes m) c1 = []) ∧
    ((∀ rec ∈ m.answers,
        ¬(pyOr rec.cat1 "Unknown" = c1 ∧ pyOr rec.cat2 "Unknown" = c2)) →
        get_cat3_list (buildIndexes m) c2 c1 = []) ∧
    ((∀ rec ∈ m.answers,
        ¬(pyOr rec.cat1 "Unknown" = c1 ∧ pyOr rec.cat2 "Unknown" = c2 ∧
          pyOr rec.cat3 "Unknown" = c3)) →
        get_answers_in_cat3 (buildIndexes m) c2 c3 c1 = []) := by
  refine ⟨?_, ?_, ?_⟩
  · intro h
    have hnone : aFind (buildTree m.answers) c1 = none := by
      rw [aFind_eq_none]
      intro hc
      rcases (mem_keys1_fold m.answers [] c1).mp (by simpa [buildTree] using hc) with
        hx | ⟨rec, hrec, heq⟩
      · simp at hx
      · exact h rec hrec heq
    show (match aFind (buildTree m.answers) c1 with
      | some sub => sub.map Prod.fst
      | none => []) = []
    rw [hnone]
  · intro h
    cases hf1 : aFind (buildTree m.answers) c1 with
    | none =>
      show (match aFind (buildTree m.answers) c1 with
        | some sub => (match aFind sub c2 with
          | some sub2 => sub2.map Prod.fst
          | none => [])
        | none => []) = []
      rw [hf1]
    | some sub =>
      have hsub : subAt1 (buildTree m.answers) c1 = sub := by simp [subAt1, hf1]
      have hnone : aFind sub c2 = none := by
        rw [aFind_eq_none]
        intro hc
        rw [← hsub] at hc
        rcases (mem_keys2_fold m.answers [] c1 c2).mp (by simpa [buildTree] using hc) with
          hx | ⟨rec, hrec, he1, he2⟩

        · simp [subAt1, aFind] at hx
        · exact h rec hrec ⟨he1.symm, he2.symm⟩
      show (match aFind (buildTree m.answers) c1 with
        | some sub => (match aFind sub c2 with
          | some sub2 => sub2.map Prod.fst
          | none => [])
        | none => []) = []
      rw [hf1]
      simp [hnone]
  · intro h
    rw [get_answers_eq_leafAt]
    show leafAt (buildTree m.answers) c1 c2 c3 = []
    rw [buildTree, leafAt_fold]
    have hleaf : leafAt [] c1 c2 c3 = [] := by simp [leafAt, subAt2, subAt1, aFind]
    rw [hleaf, List.nil_append, List.filter_eq_nil_iff]
    intro rec hrec
    simp only [decide_eq_true_eq]
    intro hcond
    exact h rec hrec ⟨hcond.1.symm, hcond.2.1.symm, hcond.2.2.symm⟩

/-- Witness for C9 on a concrete one-record store and unknown path pieces. -/
theorem c9_lookup_total_empty_witness :
    get_cat2_list (buildIndexes { DataManager.init with answers := [ansBase] }) "Nope" = [] ∧
    get_cat3_list (buildIndexes { DataManager.init with answers := [ansBase] }) "Sub" "Nope" = [] ∧
    get_answers_in_cat3 (buildIndexes { DataManager.init with answers := [ansBase] })
      "Sub" "Leaf" "Nope" = [] := by
  have h := c9_lookup_total_empty { DataManager.init with answers := [ansBase] }
    "Nope" "Sub" "Leaf"
  exact ⟨h.1 (by decide), h.2.1 (by decide), h.2.2 (by decide)⟩

/-! ## Substring search (claim C5) -/

/-- Character-list prefix test, characterised. -/
theorem leadsWith_iff (n h : List Char) : leadsWith n h = true ↔ ∃ t, h = n ++ t := by
  induction n generalizing h with
  | nil => simp [leadsWith]
  | cons a as ih =>
    cases h with
    | nil =>
      simp [leadsWith]
    | cons b bs =>
      simp only [leadsWith, Bool.and_eq_true, decide_eq_true_eq, ih, List.cons_append,
        List.cons.injEq]
      constructor
      · rintro ⟨rfl, t, rfl⟩
        exact ⟨t, rfl, rfl⟩
      · rintro ⟨t, rfl, rfl⟩
        exact ⟨rfl, t, rfl⟩

/-- Character-list containment test, characterised. -/
theorem occursIn_iff (n h : List Char) :
    occursIn n h = true ↔ ∃ pre post, h = pre ++ (n ++ post) := by
  induction h with
  | nil =>
    simp only [occursIn, leadsWith_iff]
    constructor
    · rintro ⟨t, ht⟩
      exact ⟨[], t, by simpa using ht⟩
    · rintro ⟨pre, post, hp⟩
      rcases List.append_eq_nil.mp hp.symm with ⟨rfl, h2⟩
      exact ⟨post, by simpa using hp⟩
  | cons b bs ih =>
    simp only [occursIn, Bool.or_eq_true, leadsWith_iff, ih]
    constructor
    · rintro (⟨t, ht⟩ | ⟨pre, post, hp⟩)
      · exact ⟨[], t, by simpa using ht⟩
      · exact ⟨b :: pre, post, by simp [hp]⟩
    · rintro ⟨pre, post, hp⟩
      cases pre with
      | nil => exact Or.inl ⟨post, by simpa using hp⟩
      | cons x xs =>
        right
        rcases List.cons.injEq b bs x (xs ++ (n ++ post)) ▸ hp with ⟨hbx, hrest⟩
        exact ⟨xs, post, hrest⟩

/-- The Python containment test decides exactly the literal contiguous
substring relation (hence in particular it is case-sensitive). -/
theorem strIn_iff (n h : String) : strIn n h = true ↔ Substr n h := by
  unfold strIn Substr
  rw [occursIn_iff]
  constructor
  · rintro ⟨pre, post, hp⟩
    exact ⟨pre, post, by simpa [List.append_assoc] using hp⟩
  · rintro ⟨pre, post, hp⟩
    exact ⟨pre, post, by simpa [List.append_assoc] using hp⟩

/-- C5 (amended).  For every non-empty search term, keyword search returns
exactly the records whose title or body (each defaulted to empty when NULL)
literally contains the term, in storage order — the result is a sublist of
the stored record list. -/
theorem c5_search_answers_amended (m : DataManager) (kw : String) (hkw : kw ≠ "") :
    (∀ rec, rec ∈ search_answers m kw ↔
      rec ∈ m.answers ∧
        (Substr kw (pyOr rec.title "") ∨ Substr kw (pyOr rec.maintext ""))) ∧
    (search_answers m kw).Sublist m.answers := by
  have hdef : search_answers m kw =
      m.answers.filter
        (fun rec => strIn kw (pyOr rec.title "") || strIn kw (pyOr rec.maintext "")) := by
    simp [search_answers, hkw]
  constructor
  · intro rec
    rw [hdef, List.mem_filter]
    simp [Bool.or_eq_true, strIn_iff]
  · rw [hdef]
    exact List.filter_sublist _

/-- Witness for C5 on a term occurring only in the body of the record. -/
theorem c5_search_answers_amended_witness :
    (ansBase ∈ search_answers { DataManager.init with answers := [ansBase] } "Body" ↔
      ansBase ∈ [ansBase] ∧
        (Substr "Body" (pyOr ansBase.title "") ∨ Substr "Body" (pyOr ansBase.maintext ""))) ∧
    (search_answers { DataManager.init with answers := [ansBase] } "Body").Sublist
      [ansBase] := by
  have h := c5_search_answers_amended { DataManager.init with answers := [ansBase] } "Body"
    (by decide)
  exact ⟨h.1 ansBase, h.2⟩

/-- Counterexample to C5 as stated: the empty term is a literal substring of
every stored field, yet the code returns no results for it. -/
theorem c5_empty_keyword_counterexample :
    search_answers { DataManager.init with answers := [ansBase] } "" = [] ∧
    Substr "" (pyOr ansBase.title "") := by
  refine ⟨rfl, ⟨[], (pyOr ansBase.title "").toList, by simp⟩⟩

/-! ## Unavailable versus no matches (claim C7) -/

/-- C7.  With the engine stuck in Unconfigured (flag cleared, no session), a
semantic search click ends in the explicit unavailable outcome — the handler
returns before touching the result table, after `load_model` has raised the
error dialog — and that outcome is a different constructor from every
successful semantic result, in particular from an empty match list. -/
theorem c7_unavailable_distinguishable (α : Type) (em : EmbedManager) (d : ModelDir)
    (dm : DataManager) (embedFn : String → Option (List ℝ)) (query : String)
    (docs : List (Doc α)) (h1 : em.is_valid_at_startup = false)
    (h2 : em.sessionSome = false) (hq : query ≠ "") :
    (onSearchClicked em d dm embedFn false query docs).2 = SearchOutcome.unavailable ∧
    ∀ rs : List (Doc α),
      (SearchOutcome.unavailable : SearchOutcome α) ≠ SearchOutcome.semantic rs := by
  constructor
  · simp [onSearchClicked, hq, h2, load_model, h1]
  · intro rs hcontra
    exact SearchOutcome.noConfusion hcontra

/-- Witness for C7: a fresh engine that never validated, a fully valid model
directory notwithstanding, gives the unavailable outcome, and that outcome
differs from the no-matches outcome. -/
theorem c7_unavailable_distinguishable_witness :
    (onSearchClicked EmbedManager.init mdGood DataManager.init (fun _ => none) false "q"
      ([] : List (Doc Unit))).2 = SearchOutcome.unavailable ∧
    (SearchOutcome.unavailable : SearchOutcome Unit) ≠ SearchOutcome.semantic [] := by
  have h := c7_unavailable_distinguishable Unit EmbedManager.init mdGood DataManager.init
    (fun _ => none) "q" [] rfl rfl (by decide)
  exact ⟨h.1, h.2 []⟩

end ASel
